import Mathlib

/-!
Shallow embedding of the koji personality core (Go package `internal/personality`):
the emotional state machine (`transitions.go`, mood/state definitions) and the
variation engine (`variation.go`).

Conventions of the embedding:
* Go `float64` quantities (intensity, weights, echo strength) are modelled as `ℚ`
  with exact arithmetic.
* Go `time.Time` / `time.Duration` (int64 nanoseconds) are modelled as `ℤ`
  nanosecond counts; calls to `time.Now()` become an explicit `now : ℤ` argument.
* Go maps become functions into `Option` (a lookup miss is `none`); maps that the
  source populates for every key of the domain become total functions.
* Methods that mutate a struct receiver become functions returning the new struct
  (paired with the Go return value where there is one).
* The `*rand.Rand` draws of the variation engine become explicit `ℚ` arguments
  (the value of `rng.Float64()`).
-/

namespace Koji

/-- `Mood` from the Go source: Koji's current emotional state. -/
inductive Mood where
  | curious
  | excited
  | startled
  | frightened
  | happy
  | sleepy
  | cautious
deriving DecidableEq, Repr

/-- `Event` from the Go source: something that happened in the environment. -/
inductive Event where
  | loud_noise
  | music
  | speech
  | silence
  | rhythm
  | familiar_face
  | unknown_face
  | motion_detected
  | no_motion
  | unknown_object
  | petted
  | poked
  | picked_up
  | time_passed_short
  | time_passed_medium
  | time_passed_long
deriving DecidableEq, Repr

/-- `Intensity` (Go `float64`, 0.0 to 1.0) modelled as `ℚ`. -/
abbrev Intensity : Type := ℚ

/-- `IntensityLow = 0.3`. -/
def IntensityLow : Intensity := 3/10

/-- `IntensityMedium = 0.6`. -/
def IntensityMedium : Intensity := 6/10

/-- `IntensityHigh = 0.9`. -/
def IntensityHigh : Intensity := 9/10

/-- `Action` is a string type in the Go source (`type Action string`). -/
abbrev Action : Type := String

def ActionStay : Action := "stay"
def ActionExplore : Action := "explore"
def ActionFlee : Action := "flee"
def ActionApproach : Action := "approach"
def ActionRetreat : Action := "retreat"
def ActionFreeze : Action := "freeze"
def ActionWagTail : Action := "wag_tail"
def ActionPerkEars : Action := "perk_ears"
def ActionFlattenEars : Action := "flatten_ears"
def ActionTiltHead : Action := "tilt_head"
def ActionCrouch : Action := "crouch"
def ActionBounce : Action := "bounce"
def ActionSpin : Action := "spin"
def ActionCurl : Action := "curl"
def ActionPeek : Action := "peek"
def ActionNuzzle : Action := "nuzzle"
def ActionWhimper : Action := "whimper"
def ActionChirp : Action := "chirp"
def ActionBark : Action := "bark"
def ActionGrowl : Action := "growl"
def ActionYawn : Action := "yawn"
def ActionPurr : Action := "purr"
def ActionHeadBob : Action := "head_bob"
def ActionFlinch : Action := "flinch"
def ActionSniff : Action := "sniff"

/-- One Go `time.Second` in the `ℤ`-nanosecond model of `time.Duration`. -/
def nanosPerSecond : ℤ := 1000000000

/-- `EventContext` from the Go source (the `Metadata` map plays no role in the
embedded operations and is omitted). -/
structure EventContext where
  event : Event
  intensity : ℚ
  source : String
deriving DecidableEq, Repr

/-- `NewEventContext`: default intensity 0.5, empty source. -/
def NewEventContext (event : Event) : EventContext :=
  { event := event, intensity := 1/2, source := "" }

/-- `WithIntensity`: set the intensity, returning the context. -/
def EventContext.WithIntensity (ec : EventContext) (intensity : ℚ) : EventContext :=
  { ec with intensity := intensity }

/-- `EmotionalState` from the Go source: current mood, intensity, entry time and
the baseline mood to decay toward. -/
structure EmotionalState where
  currentMood : Mood
  intensity : Intensity
  enteredAt : ℤ
  baseline : Mood
deriving DecidableEq, Repr

/-- `NewEmotionalState`: start at the baseline mood `curious`, medium intensity. -/
def NewEmotionalState (now : ℤ) : EmotionalState :=
  { currentMood := .curious
    intensity := IntensityMedium
    enteredAt := now
    baseline := .curious }

/-- `SetMood`: change the current mood with the given intensity, resetting the
entry timestamp to `now` (Go: `time.Now()`). -/
def EmotionalState.SetMood (e : EmotionalState) (mood : Mood) (intensity : Intensity)
    (now : ℤ) : EmotionalState :=
  { e with currentMood := mood, intensity := intensity, enteredAt := now }

/-- `Duration`: how long we have been in the current mood at time `now`. -/
def EmotionalState.Duration (e : EmotionalState) (now : ℤ) : ℤ :=
  now - e.enteredAt

/-- `IsBaseline`: whether the current mood is the baseline mood. -/
def EmotionalState.IsBaseline (e : EmotionalState) : Bool :=
  e.currentMood = e.baseline

/-- `MoodTransition`: what mood results from an event given the current mood. -/
structure MoodTransition where
  newMood : Mood
  intensity : Intensity
deriving DecidableEq, Repr

/-- `transitionTable`: the two-level Go map `map[Event]map[Mood]MoodTransition`.
An event absent from the outer map is `none`; a mood absent from an inner map is
`none` there. -/
def transitionTable : Event → Option (Mood → Option MoodTransition)
  | .loud_noise => some fun m =>
      match m with
      | .curious    => some ⟨.startled, IntensityHigh⟩
      | .happy      => some ⟨.startled, IntensityMedium⟩
      | .sleepy     => some ⟨.frightened, IntensityHigh⟩
      | .startled   => some ⟨.frightened, IntensityHigh⟩
      | .cautious   => some ⟨.frightened, IntensityHigh⟩
      | .excited    => some ⟨.startled, IntensityMedium⟩
      | .frightened => some ⟨.frightened, IntensityHigh⟩
  | .music => some fun m =>
      match m with
      | .curious    => some ⟨.happy, IntensityMedium⟩
      | .sleepy     => some ⟨.curious, IntensityLow⟩
      | .cautious   => some ⟨.curious, IntensityMedium⟩
      | .startled   => some ⟨.cautious, IntensityMedium⟩
      | .frightened => some ⟨.cautious, IntensityMedium⟩
      | .happy      => some ⟨.happy, IntensityHigh⟩
      | .excited    => some ⟨.happy, IntensityHigh⟩
  | .rhythm => some fun m =>
      match m with
      | .curious => some ⟨.happy, IntensityMedium⟩
      | .happy   => some ⟨.excited, IntensityHigh⟩
      | .excited => some ⟨.excited, IntensityHigh⟩
      | _        => none
  | .familiar_face => some fun m =>
      match m with
      | .curious    => some ⟨.happy, IntensityMedium⟩
      | .cautious   => some ⟨.happy, IntensityMedium⟩
      | .frightened => some ⟨.cautious, IntensityMedium⟩
      | .startled   => some ⟨.cautious, IntensityLow⟩
      | .sleepy     => some ⟨.happy, IntensityLow⟩
      | .happy      => some ⟨.excited, IntensityHigh⟩
      | .excited    => some ⟨.excited, IntensityHigh⟩
  | .unknown_face => some fun m =>
      match m with
      | .curious    => some ⟨.cautious, IntensityMedium⟩
      | .happy      => some ⟨.cautious, IntensityLow⟩
      | .sleepy     => some ⟨.cautious, IntensityMedium⟩
      | .cautious   => some ⟨.cautious, IntensityHigh⟩
      | .frightened => some ⟨.frightened, IntensityHigh⟩
      | .startled   => some ⟨.frightened, IntensityHigh⟩
      | .excited    => some ⟨.cautious, IntensityMedium⟩
  | .motion_detected => some fun m =>
      match m with
      | .curious => some ⟨.excited, IntensityMedium⟩
      | .sleepy  => some ⟨.curious, IntensityLow⟩
      | .happy   => some ⟨.excited, IntensityMedium⟩
      | _        => none
  | .unknown_object => some fun m =>
      match m with
      | .curious    => some ⟨.excited, IntensityHigh⟩
      | .happy      => some ⟨.excited, IntensityHigh⟩
      | .sleepy     => some ⟨.curious, IntensityMedium⟩
      | .excited    => some ⟨.excited, IntensityHigh⟩
      | .cautious   => some ⟨.curious, IntensityMedium⟩
      | .startled   => some ⟨.cautious, IntensityHigh⟩
      | .frightened => some ⟨.cautious, IntensityHigh⟩
  | .petted => some fun m =>
      match m with
      | .curious    => some ⟨.happy, IntensityMedium⟩
      | .cautious   => some ⟨.happy, IntensityMedium⟩
      | .frightened => some ⟨.cautious, IntensityLow⟩
      | .startled   => some ⟨.cautious, IntensityLow⟩
      | .happy      => some ⟨.happy, IntensityHigh⟩
      | .excited    => some ⟨.happy, IntensityHigh⟩
      | .sleepy     => some ⟨.sleepy, IntensityMedium⟩
  | .poked => some fun m =>
      match m with
      | .curious  => some ⟨.startled, IntensityMedium⟩
      | .sleepy   => some ⟨.startled, IntensityHigh⟩
      | .happy    => some ⟨.curious, IntensityMedium⟩
      | .cautious => some ⟨.startled, IntensityMedium⟩
      | _         => none
  | .silence => some fun m =>
      match m with
      | .curious  => some ⟨.sleepy, IntensityLow⟩
      | .happy    => some ⟨.curious, IntensityLow⟩
      | .cautious => some ⟨.curious, IntensityLow⟩
      | .excited  => some ⟨.happy, IntensityMedium⟩
      | _         => none
  | .time_passed_long => some fun m =>
      match m with
      | .curious  => some ⟨.sleepy, IntensityMedium⟩
      | .cautious => some ⟨.curious, IntensityMedium⟩
      | .happy    => some ⟨.curious, IntensityMedium⟩
      | .excited  => some ⟨.happy, IntensityMedium⟩
      | _         => none
  | _ => none

/-- The combined two-level lookup of `transitionTable` (used to state claims:
"no entry for (event, mood)" means this is `none`). -/
def lookupTransition (ev : Event) (m : Mood) : Option MoodTransition :=
  match transitionTable ev with
  | none => none
  | some eventTransitions => eventTransitions m

/-- `decayPaths`: how moods decay toward baseline; the Go map is populated for
every mood, so it is a total function here. -/
def decayPaths : Mood → Mood
  | .frightened => .cautious
  | .cautious   => .curious
  | .startled   => .cautious
  | .excited    => .happy
  | .happy      => .curious
  | .sleepy     => .curious
  | .curious    => .curious

/-- `decayTimes`: how long before a mood decays (nanoseconds); `curious` has no
entry in the Go map. -/
def decayTimes : Mood → Option ℤ
  | .frightened => some (15 * nanosPerSecond)
  | .startled   => some (5 * nanosPerSecond)
  | .cautious   => some (20 * nanosPerSecond)
  | .excited    => some (30 * nanosPerSecond)
  | .happy      => some (45 * nanosPerSecond)
  | .sleepy     => some (60 * nanosPerSecond)
  | .curious    => none

/-- `ProcessEvent`: update the emotional state from an incoming event at time
`now`; returns the new state and whether the mood changed. -/
def EmotionalState.ProcessEvent (e : EmotionalState) (ctx : EventContext)
    (now : ℤ) : EmotionalState × Bool :=
  match transitionTable ctx.event with
  | none => (e, false)
  | some eventTransitions =>
    match eventTransitions e.currentMood with
    | none => (e, false)
    | some transition =>
      let newIntensity : Intensity :=
        if ctx.intensity > 7/10 then IntensityHigh
        else if ctx.intensity < 3/10 then IntensityLow
        else transition.intensity
      let oldMood := e.currentMood
      let e' := e.SetMood transition.newMood newIntensity now
      (e', decide (oldMood ≠ e'.currentMood))

/-- `Decay`: if enough time has passed, decay the mood one step toward baseline;
returns the new state and whether the mood changed. -/
def EmotionalState.Decay (e : EmotionalState) (now : ℤ) : EmotionalState × Bool :=
  if e.IsBaseline then (e, false)
  else
    match decayTimes e.currentMood with
    | none => (e, false)
    | some decayTime =>
      if e.Duration now < decayTime then (e, false)
      else
        let nextMood := decayPaths e.currentMood
        if nextMood = e.currentMood then (e, false)
        else
          let newIntensity : Intensity :=
            let d := e.intensity - 2/10
            if d < IntensityLow then IntensityLow else d
          (e.SetMood nextMood newIntensity now, true)

/-! ## Variation engine (`variation.go`) -/

/-- `WeightedAction`: an action paired with a relative probability weight. -/
structure WeightedAction where
  action : Action
  weight : ℚ
deriving DecidableEq, Repr

/-- `ActionModifier`: how an action is performed. -/
inductive ActionModifier where
  | slow
  | normal
  | fast
  | frantic
  | gentle
  | hesitant
  | eager
deriving DecidableEq, Repr

/-- `ModifiedAction`: an action together with a modifier. -/
structure ModifiedAction where
  action : Action
  modifier : ActionModifier
deriving DecidableEq, Repr

/-- `weightedMoodActions`: the per-mood base weighted action tables; the Go map
is populated for every mood, so lookups always succeed (`some`). -/
def weightedMoodActions : Mood → Option (List WeightedAction)
  | .curious => some
      [⟨ActionExplore, 4⟩, ⟨ActionPerkEars, 3⟩, ⟨ActionTiltHead, 3⟩,
       ⟨ActionApproach, 2⟩, ⟨ActionStay, 1⟩, ⟨ActionChirp, 3/2⟩, ⟨ActionSniff, 5/2⟩]
  | .excited => some
      [⟨ActionBounce, 4⟩, ⟨ActionWagTail, 4⟩, ⟨ActionSpin, 3⟩, ⟨ActionApproach, 3⟩,
       ⟨ActionBark, 2⟩, ⟨ActionPerkEars, 2⟩, ⟨ActionChirp, 5/2⟩, ⟨ActionExplore, 3/2⟩]
  | .happy => some
      [⟨ActionWagTail, 5⟩, ⟨ActionNuzzle, 3⟩, ⟨ActionPurr, 3⟩, ⟨ActionStay, 5/2⟩,
       ⟨ActionHeadBob, 2⟩, ⟨ActionChirp, 2⟩, ⟨ActionApproach, 3/2⟩, ⟨ActionExplore, 1⟩]
  | .startled => some
      [⟨ActionFreeze, 5⟩, ⟨ActionPerkEars, 4⟩, ⟨ActionCrouch, 3⟩, ⟨ActionRetreat, 5/2⟩,
       ⟨ActionWhimper, 2⟩, ⟨ActionFlee, 3/2⟩, ⟨ActionFlattenEars, 2⟩]
  | .frightened => some
      [⟨ActionFlee, 5⟩, ⟨ActionCrouch, 4⟩, ⟨ActionWhimper, 4⟩, ⟨ActionFlattenEars, 7/2⟩,
       ⟨ActionRetreat, 3⟩, ⟨ActionPeek, 2⟩, ⟨ActionFreeze, 3/2⟩]
  | .cautious => some
      [⟨ActionPeek, 4⟩, ⟨ActionPerkEars, 4⟩, ⟨ActionFreeze, 3⟩, ⟨ActionStay, 3⟩,
       ⟨ActionRetreat, 5/2⟩, ⟨ActionGrowl, 2⟩, ⟨ActionFlattenEars, 3/2⟩, ⟨ActionWhimper, 1⟩]
  | .sleepy => some
      [⟨ActionCurl, 5⟩, ⟨ActionYawn, 4⟩, ⟨ActionStay, 7/2⟩, ⟨ActionPurr, 2⟩]

/-- `MoodEcho`: lingering effect from a previous mood. -/
structure MoodEcho where
  fromMood : Mood
  strength : ℚ
  startedAt : ℤ
deriving DecidableEq, Repr

/-- The anonymous struct stored as a value of the Go `echoEffects` map: a decay
window and, per current mood, extra weighted actions. -/
structure EchoEffect where
  decayTime : ℤ
  effects : Mood → Option (List WeightedAction)

/-- `echoEffects`: how past moods bleed into current behavior; only
`frightened`, `startled`, `excited` and `happy` have entries. -/
def echoEffects : Mood → Option EchoEffect
  | .frightened => some
      { decayTime := 45 * nanosPerSecond
        effects := fun m =>
          match m with
          | .curious  => some [⟨ActionPeek, 2⟩, ⟨ActionFlattenEars, 3/2⟩, ⟨ActionFreeze, 1⟩]
          | .cautious => some [⟨ActionWhimper, 3/2⟩, ⟨ActionCrouch, 1⟩]
          | .happy    => some [⟨ActionPeek, 1⟩]
          | _         => none }
  | .startled => some
      { decayTime := 20 * nanosPerSecond
        effects := fun m =>
          match m with
          | .curious  => some [⟨ActionPerkEars, 2⟩, ⟨ActionFreeze, 1⟩]
          | .cautious => some [⟨ActionFlinch, 3/2⟩]
          | _         => none }
  | .excited => some
      { decayTime := 30 * nanosPerSecond
        effects := fun m =>
          match m with
          | .happy   => some [⟨ActionBounce, 2⟩, ⟨ActionWagTail, 3/2⟩]
          | .curious => some [⟨ActionBounce, 1⟩]
          | _        => none }
  | .happy => some
      { decayTime := 60 * nanosPerSecond
        effects := fun m =>
          match m with
          | .curious => some [⟨ActionWagTail, 3/2⟩, ⟨ActionChirp, 1⟩]
          | _        => none }
  | _ => none

/-- `VariationEngine`: the mood-echo ledger and its capacity (the Go struct's
`*rand.Rand` field becomes explicit `ℚ` arguments of the operations). -/
structure VariationEngine where
  moodHistory : List MoodEcho
  maxHistory : ℕ
deriving DecidableEq, Repr

/-- `NewVariationEngine`: empty ledger with capacity 8. -/
def NewVariationEngine : VariationEngine :=
  { moodHistory := [], maxHistory := 8 }

/-- `RecordMoodChange`: push an echo {fromMood, strength 1.0, now}, evicting the
oldest entry when the ledger is already at capacity. -/
def VariationEngine.RecordMoodChange (v : VariationEngine) (fromMood : Mood)
    (now : ℤ) : VariationEngine :=
  let echo : MoodEcho := { fromMood := fromMood, strength := 1, startedAt := now }
  let hist := if v.moodHistory.length ≥ v.maxHistory then v.moodHistory.tail
              else v.moodHistory
  { v with moodHistory := hist ++ [echo] }

/-- `GetActiveEchoes`: the echoes still affecting behavior at time `now`, with
strength recomputed by linear decay. -/
def VariationEngine.GetActiveEchoes (v : VariationEngine) (now : ℤ) : List MoodEcho :=
  v.moodHistory.filterMap fun echo =>
    match echoEffects echo.fromMood with
    | none => none
    | some effect =>
      let elapsed := now - echo.startedAt
      if elapsed ≥ effect.decayTime then none
      else
        let strength : ℚ := 1 - (elapsed : ℚ) / (effect.decayTime : ℚ)
        some { fromMood := echo.fromMood, strength := strength, startedAt := echo.startedAt }

/-- The cumulative-sum walk of `weightedRandomChoice` / the Go `for` loop:
returns the first action whose cumulative weight is ≥ `r`, or `none` if the
loop falls through. -/
def cumulativeWalk : List WeightedAction → ℚ → ℚ → Option Action
  | [], _, _ => none
  | wa :: rest, r, cumulative =>
    let cumulative' := cumulative + wa.weight
    if r ≤ cumulative' then some wa.action else cumulativeWalk rest r cumulative'

/-- `weightedRandomChoice`: weighted random selection; `r01` is the value drawn
from `rng.Float64()` (in `[0,1)`). An empty candidate list yields `ActionStay`;
if the walk falls through, the first candidate is returned. -/
def weightedRandomChoice (r01 : ℚ) (actions : List WeightedAction) : Action :=
  if actions.isEmpty then ActionStay
  else
    let totalWeight := (actions.map WeightedAction.weight).sum
    let r := r01 * totalWeight
    match cumulativeWalk actions r 0 with
    | some a => a
    | none => (actions.headD ⟨ActionStay, 0⟩).action

/-- `intensityToModifier`: map intensity to an action modifier with jitter;
`rJitter` is the value drawn from `rng.Float64()`. -/
def intensityToModifier (rJitter : ℚ) (intensity : Intensity) (mood : Mood) :
    ActionModifier :=
  let jitter := (rJitter - 1/2) * (2/10)
  let adjustedIntensity := intensity + jitter
  match mood with
  | .frightened | .startled =>
    if adjustedIntensity > 8/10 then .frantic
    else if adjustedIntensity > 1/2 then .fast
    else .hesitant
  | .excited =>
    if adjustedIntensity > 8/10 then .frantic
    else if adjustedIntensity > 1/2 then .eager
    else .fast
  | .sleepy =>
    if adjustedIntensity > 7/10 then .slow
    else .gentle
  | .cautious =>
    if adjustedIntensity > 6/10 then .hesitant
    else .slow
  | .happy =>
    if adjustedIntensity > 7/10 then .eager
    else .normal
  | _ =>
    if adjustedIntensity > 7/10 then .eager
    else if adjustedIntensity < 3/10 then .gentle
    else .normal

/-! ## Heap model for slice copying in `getWeightedActions` / `SelectAction`

`SelectAction` starts from a copy of the shared per-mood table and then appends
echo-injected candidates. To make the absence of mutation of the shared tables
a provable statement rather than a triviality, slices of `WeightedAction` are
modelled as pointers into a heap of arrays. Every array in the program reaches
`append` with `len == cap` (slice literals and `make(n)` have `cap == len`), so
Go's `append` is modelled as allocating a fresh array. -/

/-- A heap of weighted-action arrays; a slice is an index into `arrays`. -/
structure Heap where
  arrays : List (List WeightedAction)
deriving DecidableEq, Repr

/-- Read the array a pointer refers to. -/
def Heap.get (h : Heap) (p : ℕ) : List WeightedAction :=
  h.arrays.getD p []

/-- Allocate a fresh array, returning its pointer and the new heap. -/
def Heap.alloc (h : Heap) (content : List WeightedAction) : ℕ × Heap :=
  (h.arrays.length, ⟨h.arrays ++ [content]⟩)

/-- Go `append(s, wa)` on a full backing array (`len == cap`): allocate a fresh
array holding the old contents plus the new element. -/
def Heap.push (h : Heap) (p : ℕ) (wa : WeightedAction) : ℕ × Heap :=
  h.alloc (h.get p ++ [wa])

/-- `getWeightedActions`: look up the mood's base table (slice pointer); on a
hit, `make` + `copy` — allocate an exact-size array with the same contents; the
`!ok` fallback returns the shared `curious` table without copying (a `nil`
result when even that is absent is modelled as a fresh empty array). -/
def getWeightedActions (tables : Mood → Option ℕ) (h : Heap) (mood : Mood) :
    ℕ × Heap :=
  match tables mood with
  | some p => h.alloc (h.get p)
  | none =>
    match tables Mood.curious with
    | some q => (q, h)
    | none => h.alloc []

/-- `SelectAction`: copy the current mood's base table, append echo-injected
candidates with weight scaled by echo strength, pick an action by weighted
random choice and a modifier from the intensity. `tables` are the pointers of
the shared global `weightedMoodActions` slices; `rChoice`, `rJitter` are the
two `rng.Float64()` draws. -/
def VariationEngine.SelectAction (v : VariationEngine) (tables : Mood → Option ℕ)
    (h : Heap) (state : EmotionalState) (now : ℤ) (rChoice rJitter : ℚ) :
    ModifiedAction × Heap :=
  let s0 := getWeightedActions tables h state.currentMood
  let echoes := v.GetActiveEchoes now
  let s1 := echoes.foldl (fun acc echo =>
      match echoEffects echo.fromMood with
      | none => acc
      | some effect =>
        match effect.effects state.currentMood with
        | none => acc
        | some echoActions =>
          echoActions.foldl (fun acc2 wa =>
              acc2.2.push acc2.1 ⟨wa.action, wa.weight * echo.strength⟩) acc)
    s0
  let action := weightedRandomChoice rChoice (s1.2.get s1.1)
  let modifier := intensityToModifier rJitter state.intensity state.currentMood
  (⟨action, modifier⟩, s1.2)

/-- Heap `h'` preserves `h`: it is at least as large and agrees with `h` on
every pointer valid in `h` (no array of `h` was mutated). -/
def Heap.Preserves (h h' : Heap) : Prop :=
  h.arrays.length ≤ h'.arrays.length ∧ ∀ p, p < h.arrays.length → h'.get p = h.get p

/-- The last `n` elements of a list (all of it when it is shorter). -/
def lastN {α : Type} (n : ℕ) (l : List α) : List α :=
  l.drop (l.length - n)

end Koji

/-! ## Theorems -/

namespace Koji

/-- A mood with an entry in `decayTimes` is not its own decay successor
(`curious`, the only self-loop of `decayPaths`, has no `decayTimes` entry). -/
theorem decayPaths_ne_of_decayTimes {m : Mood} {dt : ℤ}
    (h : decayTimes m = some dt) : decayPaths m ≠ m := by
  cases m <;> simp [decayTimes, decayPaths] at h ⊢

/-- C1: for a state not at baseline whose mood has a decay threshold, `Decay`
at time `now` is a no-op returning `false` when the elapsed time is below the
threshold; at or past the threshold it moves the mood to its decay successor,
reduces intensity by 0.2 floored at `IntensityLow` (0.3), resets the
mood-entry timestamp to `now`, and returns `true`. -/
theorem Decay_spec (e : EmotionalState) (now dt : ℤ)
    (hb : e.IsBaseline = false) (ht : decayTimes e.currentMood = some dt) :
    (e.Duration now < dt → e.Decay now = (e, false)) ∧
    (dt ≤ e.Duration now →
      e.Decay now =
        ({ currentMood := decayPaths e.currentMood,
           intensity := if e.intensity - 2/10 < IntensityLow then IntensityLow
                        else e.intensity - 2/10,
           enteredAt := now,
           baseline := e.baseline }, true)) := by
  have hne : decayPaths e.currentMood ≠ e.currentMood := decayPaths_ne_of_decayTimes ht
  constructor
  · intro hlt
    simp [EmotionalState.Decay, hb, ht, hlt]
  · intro hge
    simp [EmotionalState.Decay, hb, ht, not_lt.mpr hge, hne, EmotionalState.SetMood]

/-- C1 witness: mood `frightened` at high intensity (0.9) entered 16 s ago
(threshold 15 s): `Decay` returns `true`, the mood becomes `cautious`, the
intensity becomes 0.7 and the timestamp is reset. -/
theorem Decay_spec_witness :
    (⟨Mood.frightened, 9/10, 0, Mood.curious⟩ : EmotionalState).Decay (16 * nanosPerSecond)
      = (⟨Mood.cautious, 7/10, 16 * nanosPerSecond, Mood.curious⟩, true) := by
  have h := (Decay_spec ⟨Mood.frightened, 9/10, 0, Mood.curious⟩ (16 * nanosPerSecond)
    (15 * nanosPerSecond) (by decide) (by simp [decayTimes])).2
    (by simp [EmotionalState.Duration, nanosPerSecond])
  rw [h]
  simp [decayPaths, IntensityLow]
  norm_num

/-- C2: when the transition table has an entry for (event, current mood),
`ProcessEvent` commits the entry's mood and intensity tier — overridden to
`IntensityHigh` when the event's intensity hint is > 0.7 and to `IntensityLow`
when it is < 0.3 — resets the mood-entry timestamp to `now`, and returns `true`
iff the mood value changed (so a self-mapping entry returns `false` while still
updating intensity and timestamp). -/
theorem ProcessEvent_hit (e : EmotionalState) (ctx : EventContext) (now : ℤ)
    (tr : MoodTransition) (h : lookupTransition ctx.event e.currentMood = some tr) :
    (e.ProcessEvent ctx now).1 =
      { currentMood := tr.newMood,
        intensity := if ctx.intensity > 7/10 then IntensityHigh
                     else if ctx.intensity < 3/10 then IntensityLow
                     else tr.intensity,
        enteredAt := now,
        baseline := e.baseline } ∧
    ((e.ProcessEvent ctx now).2 = true ↔ e.currentMood ≠ tr.newMood) := by
  unfold lookupTransition at h
  cases hev : transitionTable ctx.event with
  | none => rw [hev] at h; exact absurd h (by simp)
  | some eventTransitions =>
    rw [hev] at h
    have h' : eventTransitions e.currentMood = some tr := h
    constructor
    · simp [EmotionalState.ProcessEvent, hev, h', EmotionalState.SetMood]
    · simp [EmotionalState.ProcessEvent, hev, h', EmotionalState.SetMood]

/-- C2 witness: from `curious`/medium, a `loud_noise` event with the default
0.5 intensity hint commits `startled` at the table's high tier, resets the
timestamp, and reports the mood as changed. -/
theorem ProcessEvent_hit_witness :
    ((NewEmotionalState 0).ProcessEvent (NewEventContext Event.loud_noise) 7).1 =
      { currentMood := Mood.startled, intensity := IntensityHigh,
        enteredAt := 7, baseline := Mood.curious } ∧
    ((NewEmotionalState 0).ProcessEvent (NewEventContext Event.loud_noise) 7).2 = true := by
  have h := ProcessEvent_hit (NewEmotionalState 0) (NewEventContext Event.loud_noise) 7
    ⟨Mood.startled, IntensityHigh⟩
    (by simp [lookupTransition, transitionTable, NewEventContext, NewEmotionalState])
  refine ⟨h.1.trans ?_, h.2.mpr (by decide)⟩
  have h1 : ¬((NewEventContext Event.loud_noise).intensity > 7/10) := by
    simp [NewEventContext]; norm_num
  have h2 : ¬((NewEventContext Event.loud_noise).intensity < 3/10) := by
    simp [NewEventContext]; norm_num
  simp [h1, h2, NewEmotionalState]

/-- C3: a (event, mood) pair with no entry in the transition table — including
every unknown event — leaves the state (mood, intensity and entry timestamp)
unchanged and returns `false`. -/
theorem ProcessEvent_miss (e : EmotionalState) (ctx : EventContext) (now : ℤ)
    (h : lookupTransition ctx.event e.currentMood = none) :
    e.ProcessEvent ctx now = (e, false) := by
  unfold lookupTransition at h
  cases hev : transitionTable ctx.event with
  | none => simp [EmotionalState.ProcessEvent, hev]
  | some eventTransitions =>
    rw [hev] at h
    have h' : eventTransitions e.currentMood = none := h
    simp [EmotionalState.ProcessEvent, hev, h']

/-- C3 witness: `speech` has no transitions at all, so `ProcessEvent` on the
initial state is the identity and returns `false`. -/
theorem ProcessEvent_miss_witness :
    (NewEmotionalState 0).ProcessEvent (NewEventContext Event.speech) 9
      = (NewEmotionalState 0, false) :=
  ProcessEvent_miss (NewEmotionalState 0) (NewEventContext Event.speech) 9
    (by simp [lookupTransition, transitionTable, NewEventContext])

/-- C9: from `curious`/medium, `loud_noise` (default 0.5 hint) moves the mood
to `startled` with `changed = true`, and a second immediate `loud_noise`
escalates to `frightened`, again with `changed = true`. -/
theorem loud_noise_escalation :
    ((NewEmotionalState 0).ProcessEvent (NewEventContext Event.loud_noise) 1).1.currentMood
        = Mood.startled ∧
    ((NewEmotionalState 0).ProcessEvent (NewEventContext Event.loud_noise) 1).2 = true ∧
    (((NewEmotionalState 0).ProcessEvent (NewEventContext Event.loud_noise) 1).1.ProcessEvent
        (NewEventContext Event.loud_noise) 2).1.currentMood = Mood.frightened ∧
    (((NewEmotionalState 0).ProcessEvent (NewEventContext Event.loud_noise) 1).1.ProcessEvent
        (NewEventContext Event.loud_noise) 2).2 = true := by
  decide

/-- C8: iterating the decay-successor map reaches the baseline mood `curious`
from every mood within at most two steps — in particular `frightened` decays to
`cautious` and then `curious` — and consequently two `Decay` calls, each made
once the longest dwell threshold (60 s) has elapsed, bring any state whose
baseline is `curious` back to the baseline mood. -/
theorem decay_reaches_baseline :
    (∀ m : Mood, decayPaths (decayPaths m) = Mood.curious) ∧
    decayPaths Mood.frightened = Mood.cautious ∧
    decayPaths Mood.cautious = Mood.curious ∧
    ∀ (e : EmotionalState) (now1 now2 : ℤ),
      e.baseline = Mood.curious →
      60 * nanosPerSecond ≤ e.Duration now1 →
      60 * nanosPerSecond ≤ now2 - now1 →
      (((e.Decay now1).1).Decay now2).1.currentMood = Mood.curious := by
  refine ⟨fun m => by cases m <;> rfl, rfl, rfl, ?_⟩
  intro e now1 now2 hbase h1 h2
  simp only [EmotionalState.Duration, nanosPerSecond] at h1 h2
  obtain ⟨m, i, t, b⟩ := e
  simp only at hbase h1
  subst hbase
  cases m <;>
    simp [EmotionalState.Decay, EmotionalState.IsBaseline, EmotionalState.Duration,
      decayTimes, decayPaths, EmotionalState.SetMood, nanosPerSecond,
      show ¬(now1 - t < 15000000000) by omega,
      show ¬(now1 - t < 5000000000) by omega,
      show ¬(now1 - t < 20000000000) by omega,
      show ¬(now1 - t < 30000000000) by omega,
      show ¬(now1 - t < 45000000000) by omega,
      show ¬(now1 - t < 60000000000) by omega,
      show ¬(now2 - now1 < 15000000000) by omega,
      show ¬(now2 - now1 < 5000000000) by omega,
      show ¬(now2 - now1 < 20000000000) by omega,
      show ¬(now2 - now1 < 30000000000) by omega,
      show ¬(now2 - now1 < 45000000000) by omega,
      show ¬(now2 - now1 < 60000000000) by omega]

/-- C8 witness: a frightened state (baseline `curious`) decayed at 60 s and
again at 120 s is back at the baseline mood. -/
theorem decay_reaches_baseline_witness :
    (((⟨Mood.frightened, 9/10, 0, Mood.curious⟩ : EmotionalState).Decay
        (60 * nanosPerSecond)).1.Decay (120 * nanosPerSecond)).1.currentMood
      = Mood.curious := by
  refine decay_reaches_baseline.2.2.2 ⟨Mood.frightened, 9/10, 0, Mood.curious⟩
    (60 * nanosPerSecond) (120 * nanosPerSecond) rfl ?_ ?_ <;>
    simp [EmotionalState.Duration, nanosPerSecond]

/-- Inversion for `GetActiveEchoes`: every reported echo comes from a ledger
entry whose origin mood is configured in `echoEffects`, queried strictly inside
its decay window, with linearly decayed strength. -/
theorem mem_getActiveEchoes_inv (v : VariationEngine) (now : ℤ) (a : MoodEcho)
    (ha : a ∈ v.GetActiveEchoes now) :
    ∃ b ∈ v.moodHistory, ∃ eff, echoEffects b.fromMood = some eff ∧
      now - b.startedAt < eff.decayTime ∧
      a = ⟨b.fromMood, 1 - ((now - b.startedAt : ℤ) : ℚ) / ((eff.decayTime : ℤ) : ℚ),
           b.startedAt⟩ := by
  obtain ⟨b, hb, hfb⟩ := List.mem_filterMap.mp ha
  cases hEb : echoEffects b.fromMood with
  | none => rw [hEb] at hfb; exact absurd hfb (by simp)
  | some eff =>
    rw [hEb] at hfb
    simp only at hfb
    by_cases hlt : now - b.startedAt ≥ eff.decayTime
    · rw [if_pos hlt] at hfb; exact absurd hfb (by simp)
    · rw [if_neg hlt] at hfb
      exact ⟨b, hb, eff, hEb, not_le.mp hlt, (Option.some.inj hfb).symm⟩

/-- C4: a ledger echo whose origin mood has decay window `W` is reported by
`GetActiveEchoes` at time `now` with strength exactly `1 − elapsed/W` whenever
`elapsed < W`, and is omitted (no reported echo shares its origin and
timestamp) whenever `elapsed ≥ W`. -/
theorem GetActiveEchoes_spec (v : VariationEngine) (now : ℤ) (e : MoodEcho) (W : ℤ)
    (hmem : e ∈ v.moodHistory)
    (hcfg : ∃ eff, echoEffects e.fromMood = some eff ∧ eff.decayTime = W) :
    (now - e.startedAt < W →
      (⟨e.fromMood, 1 - ((now - e.startedAt : ℤ) : ℚ) / ((W : ℤ) : ℚ), e.startedAt⟩ : MoodEcho)
        ∈ v.GetActiveEchoes now) ∧
    (W ≤ now - e.startedAt →
      ∀ a ∈ v.GetActiveEchoes now,
        ¬(a.fromMood = e.fromMood ∧ a.startedAt = e.startedAt)) := by
  obtain ⟨eff, heff, hW⟩ := hcfg
  subst hW
  constructor
  · intro hlt
    refine List.mem_filterMap.mpr ⟨e, hmem, ?_⟩
    rw [heff]
    simp only
    rw [if_neg (not_le.mpr hlt)]
  · intro hge a ha hand
    obtain ⟨b, _, effb, heffb, hltb, hab⟩ := mem_getActiveEchoes_inv v now a ha
    have hfm : b.fromMood = e.fromMood := by rw [hab] at hand; exact hand.1
    have hst : b.startedAt = e.startedAt := by rw [hab] at hand; exact hand.2
    rw [hfm] at heffb
    rw [heff] at heffb
    have : effb = eff := (Option.some.inj heffb).symm
    rw [this, hst] at hltb
    exact absurd hltb (not_lt.mpr hge)

/-- C4 witness: an echo recorded from `frightened` (window 45 s) at time 0 is
reported 22 s later with strength 1 − 22/45 = 23/45 ≈ 0.51, and no echo is
reported 46 s later. -/
theorem GetActiveEchoes_spec_witness :
    (⟨Mood.frightened, 1 - ((22 * nanosPerSecond : ℤ) : ℚ) / ((45 * nanosPerSecond : ℤ) : ℚ),
        0⟩ : MoodEcho)
      ∈ (⟨[⟨Mood.frightened, 1, 0⟩], 8⟩ : VariationEngine).GetActiveEchoes
          (22 * nanosPerSecond) ∧
    (⟨[⟨Mood.frightened, 1, 0⟩], 8⟩ : VariationEngine).GetActiveEchoes
        (46 * nanosPerSecond) = [] ∧
    (1 : ℚ) - ((22 * nanosPerSecond : ℤ) : ℚ) / ((45 * nanosPerSecond : ℤ) : ℚ) = 23/45 := by
  refine ⟨?_, ?_, ?_⟩
  · have h := (GetActiveEchoes_spec ⟨[⟨Mood.frightened, 1, 0⟩], 8⟩ (22 * nanosPerSecond)
      ⟨Mood.frightened, 1, 0⟩ (45 * nanosPerSecond) (by simp) ⟨_, rfl, rfl⟩).1
      (by simp [nanosPerSecond])
    simpa using h
  · simp [VariationEngine.GetActiveEchoes, echoEffects, nanosPerSecond]
  · simp [nanosPerSecond]
    norm_num

/-- C10: an echo recorded from a mood with no `echoEffects` entry (`curious`,
`cautious` or `sleepy`) is never reported by `GetActiveEchoes` at any query
time — even immediately after `RecordMoodChange` — although the recorded echo
(strength 1.0) does occupy a slot of the ledger. -/
theorem unconfigured_echo_inactive (m : Mood)
    (hm : m = Mood.curious ∨ m = Mood.cautious ∨ m = Mood.sleepy) :
    echoEffects m = none ∧
    (∀ (v : VariationEngine) (now : ℤ),
      (⟨m, 1, now⟩ : MoodEcho) ∈ (v.RecordMoodChange m now).moodHistory) ∧
    (∀ (v : VariationEngine) (now t : ℤ),
      ∀ a ∈ (v.RecordMoodChange m now).GetActiveEchoes t, a.fromMood ≠ m) := by
  have hnone : echoEffects m = none := by
    rcases hm with h | h | h <;> subst h <;> rfl
  refine ⟨hnone, ?_, ?_⟩
  · intro v now
    simp [VariationEngine.RecordMoodChange]
  · intro v now t a ha hfm
    obtain ⟨b, _, eff, heff, _, hab⟩ := mem_getActiveEchoes_inv _ t a ha
    rw [hab] at hfm
    simp only at hfm
    rw [hfm] at heff
    rw [hnone] at heff
    exact absurd heff (by simp)

/-- C10 witness: recording a `curious` echo puts it in the ledger, yet an
immediate `GetActiveEchoes` query reports nothing. -/
theorem unconfigured_echo_inactive_witness :
    echoEffects Mood.curious = none ∧
    (⟨Mood.curious, 1, 0⟩ : MoodEcho)
      ∈ (NewVariationEngine.RecordMoodChange Mood.curious 0).moodHistory ∧
    (NewVariationEngine.RecordMoodChange Mood.curious 0).GetActiveEchoes 0 = [] := by
  have h := unconfigured_echo_inactive Mood.curious (Or.inl rfl)
  exact ⟨h.1, h.2.1 NewVariationEngine 0,
    by simp [NewVariationEngine, VariationEngine.RecordMoodChange,
      VariationEngine.GetActiveEchoes, echoEffects]⟩

/-- `lastN n l` is all of `l` when `l` has at most `n` elements. -/
theorem lastN_of_le {α : Type} {n : ℕ} {l : List α} (h : l.length ≤ n) :
    lastN n l = l := by
  simp [lastN, Nat.sub_eq_zero_of_le h]

/-- Length of `lastN`. -/
theorem lastN_length {α : Type} (n : ℕ) (l : List α) :
    (lastN n l).length = min n l.length := by
  simp [lastN]
  omega

/-- One `RecordMoodChange` step on a capacity-8 engine whose ledger holds the
last 8 of a full echo history `es`. -/
theorem recordMoodChange_step (es : List MoodEcho) (m : Mood) (t : ℤ) :
    (VariationEngine.mk (lastN 8 es) 8).RecordMoodChange m t
      = ⟨lastN 8 (es ++ [⟨m, 1, t⟩]), 8⟩ := by
  have hlen : (lastN 8 es).length = min 8 es.length := lastN_length 8 es
  by_cases hc : 8 ≤ es.length
  · have h1 : (lastN 8 es).length ≥ 8 := by omega
    have h3 : (es ++ [(⟨m, 1, t⟩ : MoodEcho)]).length - 8 = es.length - 8 + 1 := by
      simp
      omega
    have h2 : lastN 8 (es ++ [(⟨m, 1, t⟩ : MoodEcho)])
        = es.drop (es.length - 8 + 1) ++ [⟨m, 1, t⟩] := by
      unfold lastN
      rw [h3, List.drop_append_of_le_length (by omega)]
    simp only [VariationEngine.RecordMoodChange, h2]
    rw [if_pos h1]
    unfold lastN
    rw [List.tail_drop]
  · have h1 : ¬((lastN 8 es).length ≥ 8) := by omega
    simp only [VariationEngine.RecordMoodChange]
    rw [if_neg h1]
    rw [lastN_of_le (le_of_not_le hc), lastN_of_le (by simp; omega)]

/-- Folding `RecordMoodChange` over a call list keeps the ledger equal to the
last 8 recorded echoes. -/
theorem recordMoodChange_fold (calls : List (Mood × ℤ)) : ∀ es : List MoodEcho,
    calls.foldl (fun (v : VariationEngine) (c : Mood × ℤ) => v.RecordMoodChange c.1 c.2)
        ⟨lastN 8 es, 8⟩
      = ⟨lastN 8 (es ++ calls.map fun c => ⟨c.1, 1, c.2⟩), 8⟩ := by
  induction calls with
  | nil => intro es; simp
  | cons c rest ih =>
    intro es
    simp only [List.foldl_cons]
    rw [recordMoodChange_step]
    rw [ih (es ++ [({ fromMood := c.1, strength := 1, startedAt := c.2 } : MoodEcho)])]
    simp

/-- C7: after any sequence of `RecordMoodChange` calls on a fresh engine the
ledger is exactly the last 8 recorded echoes — each call pushes an echo with
strength 1.0 and its call time, and at capacity 8 the oldest entry is evicted
first — so the ledger never holds more than 8 echoes. -/
theorem RecordMoodChange_fifo (calls : List (Mood × ℤ)) :
    (calls.foldl (fun v c => v.RecordMoodChange c.1 c.2) NewVariationEngine).moodHistory
        = lastN 8 (calls.map fun c => ⟨c.1, 1, c.2⟩) ∧
    (calls.foldl (fun v c => v.RecordMoodChange c.1 c.2)
        NewVariationEngine).moodHistory.length ≤ 8 := by
  have h : NewVariationEngine = (⟨lastN 8 [], 8⟩ : VariationEngine) := rfl
  rw [h, recordMoodChange_fold]
  refine ⟨by simp, ?_⟩
  simp only [List.nil_append, lastN_length]
  omega

/-- The cumulative-sum walk only ever returns the action of a list element. -/
theorem cumulativeWalk_eq_some {l : List WeightedAction} {r c : ℚ} {a : Action}
    (h : cumulativeWalk l r c = some a) : ∃ wa ∈ l, wa.action = a := by
  induction l generalizing c with
  | nil => simp [cumulativeWalk] at h
  | cons wa rest ih =>
    simp only [cumulativeWalk] at h
    by_cases hr : r ≤ c + wa.weight
    · rw [if_pos hr] at h
      exact ⟨wa, by simp, Option.some.inj h⟩
    · rw [if_neg hr] at h
      obtain ⟨wb, hwb, hab⟩ := ih h
      exact ⟨wb, by simp [hwb], hab⟩

/-- C5 counterexample: no single fixed action is returned by
`weightedRandomChoice` for every candidate list of total weight 0 — a nonempty
all-zero-weight list yields its own first action (`r = 0 ≤ cumulative = 0`),
not a neutral default, so `[⟨flee, 0⟩]` yields `flee` while `[⟨bark, 0⟩]`
yields `bark`. -/
theorem weightedRandomChoice_no_fixed_fallback :
    ¬ ∃ d : Action, ∀ (actions : List WeightedAction) (r01 : ℚ),
        (actions.map WeightedAction.weight).sum = 0 →
        weightedRandomChoice r01 actions = d := by
  rintro ⟨d, hd⟩
  have h1 := hd [⟨ActionFlee, 0⟩] 0 (by simp)
  have h2 := hd [⟨ActionBark, 0⟩] 0 (by simp)
  rw [show weightedRandomChoice 0 [⟨ActionFlee, 0⟩] = ActionFlee from by
    simp [weightedRandomChoice, cumulativeWalk]] at h1
  rw [show weightedRandomChoice 0 [⟨ActionBark, 0⟩] = ActionBark from by
    simp [weightedRandomChoice, cumulativeWalk]] at h2
  exact absurd (h1.trans h2.symm) (by decide)

/-- C5 (amended): only the empty candidate list (total weight 0) falls back to
the fixed neutral default `stay`; on every nonempty list — zero total weight
included — `weightedRandomChoice` never fails and returns the action of one of
the candidates. -/
theorem weightedRandomChoice_total (r01 : ℚ) (actions : List WeightedAction) :
    (actions = [] → weightedRandomChoice r01 actions = ActionStay) ∧
    (actions ≠ [] → ∃ wa ∈ actions, weightedRandomChoice r01 actions = wa.action) := by
  constructor
  · intro h
    subst h
    simp [weightedRandomChoice]
  · intro h
    cases actions with
    | nil => exact absurd rfl h
    | cons x xs =>
      rw [show weightedRandomChoice r01 (x :: xs) =
            (match cumulativeWalk (x :: xs)
                (r01 * ((x :: xs).map WeightedAction.weight).sum) 0 with
             | some a => a
             | none => x.action) from rfl]
      cases hwalk : cumulativeWalk (x :: xs)
          (r01 * ((x :: xs).map WeightedAction.weight).sum) 0 with
      | some a =>
        obtain ⟨wa, hmem, hact⟩ := cumulativeWalk_eq_some hwalk
        exact ⟨wa, hmem, hact.symm⟩
      | none =>
        exact ⟨x, by simp, rfl⟩

/-- C5 witness: the empty list falls back to `stay`; a nonempty singleton
returns its own candidate. -/
theorem weightedRandomChoice_total_witness :
    weightedRandomChoice 0 ([] : List WeightedAction) = ActionStay ∧
    weightedRandomChoice (1/2) [⟨ActionBark, 2⟩] = ActionBark := by
  refine ⟨(weightedRandomChoice_total 0 []).1 rfl, ?_⟩
  obtain ⟨wa, hwa, heq⟩ :=
    (weightedRandomChoice_total (1/2) [⟨ActionBark, 2⟩]).2 (by simp)
  simp only [List.mem_singleton] at hwa
  rw [heq, hwa]

/-- Reading a valid pointer is unaffected by an allocation. -/
theorem Heap.get_alloc_lt (h : Heap) (c : List WeightedAction) {p : ℕ}
    (hp : p < h.arrays.length) : (h.alloc c).2.get p = h.get p := by
  simp only [Heap.alloc, Heap.get]
  exact List.getD_append _ _ _ _ hp

/-- Reading the pointer returned by an allocation yields its content. -/
theorem Heap.get_alloc_self (h : Heap) (c : List WeightedAction) :
    (h.alloc c).2.get (h.alloc c).1 = c := by
  simp only [Heap.alloc, Heap.get]
  rw [List.getD_append_right _ _ _ _ (le_refl _)]
  simp

/-- `Preserves` is reflexive. -/
theorem Heap.preserves_refl (h : Heap) : h.Preserves h :=
  ⟨le_refl _, fun _ _ => rfl⟩

/-- `Preserves` is transitive. -/
theorem Heap.preserves_trans {h1 h2 h3 : Heap} (a : h1.Preserves h2)
    (b : h2.Preserves h3) : h1.Preserves h3 :=
  ⟨a.1.trans b.1, fun p hp => (b.2 p (lt_of_lt_of_le hp a.1)).trans (a.2 p hp)⟩

/-- Allocation preserves the heap: no existing array is touched. -/
theorem Heap.alloc_preserves (h : Heap) (c : List WeightedAction) :
    h.Preserves (h.alloc c).2 := by
  refine ⟨?_, fun p hp => Heap.get_alloc_lt h c hp⟩
  simp [Heap.alloc]

/-- `push` (Go `append` with a full backing array) preserves the heap. -/
theorem Heap.push_preserves (h : Heap) (p : ℕ) (wa : WeightedAction) :
    h.Preserves (h.push p wa).2 :=
  Heap.alloc_preserves _ _

/-- A fold whose step preserves the heap component preserves the heap. -/
theorem foldl_heap_preserves {α : Type} (f : ℕ × Heap → α → ℕ × Heap)
    (hf : ∀ (s : ℕ × Heap) (a : α), s.2.Preserves (f s a).2) :
    ∀ (l : List α) (s : ℕ × Heap), s.2.Preserves (l.foldl f s).2 := by
  intro l
  induction l with
  | nil => intro s; exact Heap.preserves_refl _
  | cons a rest ih =>
    intro s
    exact Heap.preserves_trans (hf s a) (ih (f s a))

/-- `getWeightedActions` preserves the heap (it only allocates the copy). -/
theorem getWeightedActions_preserves (tables : Mood → Option ℕ) (h : Heap)
    (mood : Mood) : h.Preserves (getWeightedActions tables h mood).2 := by
  unfold getWeightedActions
  cases tables mood with
  | some p => exact Heap.alloc_preserves _ _
  | none =>
    cases tables Mood.curious with
    | some q => exact Heap.preserves_refl _
    | none => exact Heap.alloc_preserves _ _

/-- `SelectAction` preserves the heap: it only allocates (the copied base
table and the append-extended candidate arrays), never mutates. -/
theorem SelectAction_heap_preserves (v : VariationEngine)
    (tables : Mood → Option ℕ) (h : Heap) (st : EmotionalState) (now : ℤ)
    (r1 r2 : ℚ) : h.Preserves (v.SelectAction tables h st now r1 r2).2 := by
  have hstep : ∀ (acc : ℕ × Heap) (echo : MoodEcho),
      acc.2.Preserves (match echoEffects echo.fromMood with
        | none => acc
        | some effect =>
          match effect.effects st.currentMood with
          | none => acc
          | some echoActions =>
            echoActions.foldl (fun (acc2 : ℕ × Heap) (wa : WeightedAction) =>
                acc2.2.push acc2.1 ⟨wa.action, wa.weight * echo.strength⟩) acc).2 := by
    intro acc echo
    cases echoEffects echo.fromMood with
    | none => exact Heap.preserves_refl _
    | some effect =>
      show acc.2.Preserves (match effect.effects st.currentMood with
        | none => acc
        | some echoActions =>
          echoActions.foldl (fun (acc2 : ℕ × Heap) (wa : WeightedAction) =>
              acc2.2.push acc2.1 ⟨wa.action, wa.weight * echo.strength⟩) acc).2
      cases effect.effects st.currentMood with
      | none => exact Heap.preserves_refl _
      | some echoActions =>
        exact foldl_heap_preserves _
          (fun s wa => Heap.push_preserves s.2 s.1
            ⟨wa.action, wa.weight * echo.strength⟩)
          echoActions acc
  exact Heap.preserves_trans (getWeightedActions_preserves tables h st.currentMood)
    (foldl_heap_preserves _ hstep (v.GetActiveEchoes now)
      (getWeightedActions tables h st.currentMood))

/-- Any sequence of `SelectAction` calls preserves the heap. -/
theorem foldl_selectAction_preserves (tables : Mood → Option ℕ)
    (calls : List (VariationEngine × EmotionalState × ℤ × ℚ × ℚ)) :
    ∀ h : Heap, h.Preserves (calls.foldl
      (fun (hh : Heap) (c : VariationEngine × EmotionalState × ℤ × ℚ × ℚ) =>
        (c.1.SelectAction tables hh c.2.1 c.2.2.1 c.2.2.2.1 c.2.2.2.2).2)
      h) := by
  induction calls with
  | nil => intro h; exact Heap.preserves_refl h
  | cons c rest ih =>
    intro h
    exact Heap.preserves_trans
      (SelectAction_heap_preserves c.1 tables h c.2.1 c.2.2.1 c.2.2.2.1 c.2.2.2.2)
      (ih _)

/-- C6: `SelectAction` starts from a fresh copy of the current mood's base
weighted-action table — a newly allocated array, distinct from every shared
table pointer, with the same contents — and across any sequence of
`SelectAction` calls the shared per-mood tables are never mutated: every table
pointer still reads its original contents. -/
theorem SelectAction_tables_frame (tables : Mood → Option ℕ) (h : Heap)
    (hvalid : ∀ m p, tables m = some p → p < h.arrays.length) :
    (∀ (mood : Mood) (p : ℕ), tables mood = some p →
      (getWeightedActions tables h mood).2.get (getWeightedActions tables h mood).1
          = h.get p ∧
      ∀ (m' : Mood) (p' : ℕ), tables m' = some p' →
        (getWeightedActions tables h mood).1 ≠ p') ∧
    (∀ (calls : List (VariationEngine × EmotionalState × ℤ × ℚ × ℚ))
        (m : Mood) (p : ℕ), tables m = some p →
      (calls.foldl
          (fun (hh : Heap) (c : VariationEngine × EmotionalState × ℤ × ℚ × ℚ) =>
            (c.1.SelectAction tables hh c.2.1 c.2.2.1 c.2.2.2.1 c.2.2.2.2).2)
          h).get p
        = h.get p) := by
  constructor
  · intro mood p hp
    constructor
    · unfold getWeightedActions
      rw [hp]
      exact Heap.get_alloc_self h (h.get p)
    · intro m' p' hp'
      unfold getWeightedActions
      rw [hp]
      have := hvalid m' p' hp'
      simp only [Heap.alloc]
      omega
  · intro calls m p hp
    exact (foldl_selectAction_preserves tables calls h).2 p (hvalid m p hp)

/-- C6 witness: on a one-array heap whose single table is shared by all moods,
the copy made by `getWeightedActions` reads back the table's contents, and the
table pointer reads its original contents after a `SelectAction` call. -/
theorem SelectAction_tables_frame_witness :
    ((getWeightedActions (fun _ => some 0) ⟨[[⟨ActionStay, 1⟩]]⟩ Mood.curious).2.get
        (getWeightedActions (fun _ => some 0) ⟨[[⟨ActionStay, 1⟩]]⟩ Mood.curious).1
      = (⟨[[⟨ActionStay, 1⟩]]⟩ : Heap).get 0) ∧
    (([(NewVariationEngine, NewEmotionalState 0, (0 : ℤ), (0 : ℚ), (0 : ℚ))].foldl
        (fun (hh : Heap) (c : VariationEngine × EmotionalState × ℤ × ℚ × ℚ) =>
          (c.1.SelectAction (fun _ => some 0) hh c.2.1 c.2.2.1 c.2.2.2.1 c.2.2.2.2).2)
        ⟨[[⟨ActionStay, 1⟩]]⟩).get 0
      = (⟨[[⟨ActionStay, 1⟩]]⟩ : Heap).get 0) := by
  have main := SelectAction_tables_frame (fun _ => some 0) ⟨[[⟨ActionStay, 1⟩]]⟩
    (by intro m p hp; simp only [Option.some.injEq] at hp; subst hp; simp)
  exact ⟨(main.1 Mood.curious 0 rfl).1,
    main.2 [(NewVariationEngine, NewEmotionalState 0, 0, 0, 0)] Mood.curious 0 rfl⟩

end Koji
